import Mathlib

/-!
# Verification of the HTML Email Normalizer (email_utils.py)

This file is a shallow embedding of the two core functions of the
repository, `extract_embedded_images` and `convert_html_to_jira_markup`
from `src/email_utils.py`, together with proofs of the behavioural
claims about them.

Modelling conventions:
* An HTML document is modelled as a tree (`Html`), the element tree that
  BeautifulSoup's html.parser produces.  The claims are settled at the
  tree level; parsing a raw byte string into the tree is the external
  library's job and is not re-modelled here.
* BeautifulSoup's pass structure (`find_all` snapshot in document order,
  then `replace_with` on each hit) is modelled as a top-down tree
  traversal: a replaced element's descendants are dropped, exactly as a
  `replace_with` detaches them, and elements that are not replaced are
  recursed into.  Since `find_all` lists ancestors before descendants
  and `replace_with` on an already-detached node does not change the
  soup, this traversal computes the same final tree.
* Python's `str` values are Lean `String`s, bytes are `List Nat`,
  `re.sub`/`str.strip`/`str.split`/`str.replace`/`base64.b64decode`
  are given explicit executable models next to their uses.
-/

/-- The ASCII whitespace characters stripped by Python's `str.strip()`
(space, tab, newline, carriage return, vertical tab, form feed). -/
def isPySpace (c : Char) : Bool :=
  c = ' ' || c = '\t' || c = '\n' || c = '\r' || c = '\x0b' || c = '\x0c'

/-- Left part of Python `str.strip()`: drop leading whitespace. -/
def lstripChars (cs : List Char) : List Char := cs.dropWhile isPySpace

/-- Right part of Python `str.strip()`: drop trailing whitespace. -/
def rstripChars : List Char → List Char
  | [] => []
  | c :: rest =>
    match rstripChars rest with
    | [] => if isPySpace c then [] else [c]
    | r => c :: r

/-- Python `str.strip()`: drop leading and trailing whitespace. -/
def pyStrip (cs : List Char) : List Char := rstripChars (lstripChars cs)

/-- Python `str.strip()` on `String`. -/
def pyStripStr (s : String) : String := ⟨pyStrip s.data⟩

/-- Engine shared by the two `re.sub` calls of the source: a maximal run
of the character `c` of length `j` is replaced by `min j m` copies of
`c`; `pending` counts the copies of `c` seen so far in the current run. -/
def collapseRunsAux (c : Char) (m : Nat) : Nat → List Char → List Char
  | pending, [] => List.replicate (min pending m) c
  | pending, d :: rest =>
    if d = c then collapseRunsAux c m (pending + 1) rest
    else List.replicate (min pending m) c ++ d :: collapseRunsAux c m 0 rest

/-- Collapse maximal runs of `c` longer than `m` down to `m` copies.
`collapseRuns (Char.ofNat 10) 2` is `re.sub(r'\n\x7b3,\x7d', '\n\n', ·)` and
`collapseRuns (Char.ofNat 32) 1` is `re.sub(r' \x7b2,\x7d', ' ', ·)`. -/
def collapseRuns (c : Char) (m : Nat) (cs : List Char) : List Char :=
  collapseRunsAux c m 0 cs

/-- Predicate `runOK c m k cs` scans `cs` allowing at most `k` more consecutive
copies of `c` right now; any other character resets the allowance to
`m`.  So `runOK c m m cs` says: `cs` has no run of more than `m`
consecutive copies of `c`. -/
def runOK (c : Char) (m : Nat) : Nat → List Char → Bool
  | _, [] => true
  | k, d :: rest => if d = c then decide (0 < k) && runOK c m (k - 1) rest else runOK c m m rest

/-- Models `re.sub(r'\n\x7b3,\x7d', '\n\n', ·)` (line 228 of email_utils.py). -/
def collapseNewlines (s : String) : String := ⟨collapseRuns '\n' 2 s.data⟩

/-- Models `re.sub(r' \x7b2,\x7d', ' ', ·)` (line 231 of email_utils.py). -/
def collapseSpaces (s : String) : String := ⟨collapseRuns ' ' 1 s.data⟩

/-- The final clean-up of `convert_html_to_jira_markup` (lines 227-234):
collapse 3+ newlines to 2, collapse 2+ spaces to 1, then strip. -/
def pyNormalize (s : String) : String := pyStripStr (collapseSpaces (collapseNewlines s))

/-- Python `s.split(sep)` never returns the empty list; splitting on a
newline: `"".split('\n') = [""]`. -/
def splitNlChars : List Char → List (List Char)
  | [] => [[]]
  | c :: rest =>
    if c = '\n' then [] :: splitNlChars rest
    else
      match splitNlChars rest with
      | g :: gs => (c :: g) :: gs
      | [] => [[c]]

/-- Python `s.split('\n')` on `String`. -/
def pySplitNl (s : String) : List String := (splitNlChars s.data).map (fun g => ⟨g⟩)

/-- Python `'\n'.join(parts)`. -/
def joinNl : List String → String
  | [] => ""
  | [x] => x
  | x :: xs => x ++ "\n" ++ joinNl xs

/-- Python `str.startswith`, checked character by character. -/
def leadsWith : List Char → List Char → Bool
  | [], _ => true
  | _ :: _, [] => false
  | a :: as, b :: bs => a = b && leadsWith as bs

/-- Python `src.startswith(pat)`. -/
def pyStartsWith (s pat : String) : Bool := leadsWith pat.data s.data

/-- Substring occurrence test (used only to state claims). -/
def infixOf (pat : List Char) : List Char → Bool
  | [] => pat.isEmpty
  | c :: rest => leadsWith pat (c :: rest) || infixOf pat rest

/-- Substring occurrence on `String` (used only to state claims). -/
def containsStr (s pat : String) : Bool := infixOf pat.data s.data

/-- Decimal digit of `n` (defined for `n < 10`, clamps above). -/
def decDigit (n : Nat) : Char :=
  match n with
  | 0 => '0' | 1 => '1' | 2 => '2' | 3 => '3' | 4 => '4'
  | 5 => '5' | 6 => '6' | 7 => '7' | 8 => '8' | _ => '9'

/-- Fuel-driven decimal printer (fuel `n + 1` always suffices). -/
def natToDecCore : Nat → Nat → List Char → List Char
  | 0, _, acc => acc
  | fuel + 1, n, acc =>
    if n < 10 then decDigit n :: acc
    else natToDecCore fuel (n / 10) (decDigit (n % 10) :: acc)

/-- Decimal digits of `n`, most significant first. -/
def natToDec (n : Nat) : List Char := natToDecCore (n + 1) n []

/-- Python's decimal rendering of a natural number (as in an f-string). -/
def decRepr (n : Nat) : String := ⟨natToDec n⟩

/-- Numeric value of a digit string, used to read an index back out of a
generated filename. -/
def decVal (ds : List Char) : Nat := ds.foldl (fun a c => a * 10 + (c.toNat - 48)) 0

/-! ## The document model -/

/-- An HTML element tree as produced by BeautifulSoup's html.parser: a
node is a text node (NavigableString) or an element with a tag name, an
attribute list and children. -/
inductive Html where
  | text (s : String)
  | elem (tag : String) (attrs : List (String × String)) (children : List Html)

/-- Python `tag.get(key, '')`: attribute lookup defaulting to the empty string. -/
def getAttr (attrs : List (String × String)) (key : String) : String :=
  match attrs.find? (fun p => p.1 == key) with
  | some p => p.2
  | none => ""

mutual

/-- BeautifulSoup `tag.get_text()`: concatenation of all descendant
text, in document order. -/
def getText : Html → String
  | .text s => s
  | .elem _ _ children => getTextList children

/-- The function `get_text` over a list of sibling nodes. -/
def getTextList : List Html → String
  | [] => ""
  | h :: t => getText h ++ getTextList t

end

/-- Minimal-formatter escaping of text nodes in `str(soup)`. -/
def escCharText (c : Char) : List Char :=
  if c = '&' then "&amp;".data
  else if c = '<' then "&lt;".data
  else if c = '>' then "&gt;".data
  else [c]

/-- Minimal-formatter escaping of attribute values in `str(soup)`. -/
def escCharAttr (c : Char) : List Char :=
  if c = '&' then "&amp;".data
  else if c = '<' then "&lt;".data
  else if c = '>' then "&gt;".data
  else if c = '"' then "&quot;".data
  else [c]

/-- Apply a character escape over a character list. -/
def escapeWith (f : Char → List Char) : List Char → List Char
  | [] => []
  | c :: rest => f c ++ escapeWith f rest

/-- Serialization of an attribute list: ` key="value"` for each pair. -/
def serializeAttrs : List (String × String) → String
  | [] => ""
  | (k, v) :: rest => " " ++ k ++ "=\"" ++ ⟨escapeWith escCharAttr v.data⟩ ++ "\"" ++ serializeAttrs rest

/-- The HTML void elements, which html.parser renders self-closed. -/
def voidTags : List String :=
  ["area", "base", "br", "col", "embed", "hr", "img", "input", "link",
   "meta", "param", "source", "track", "wbr"]

mutual

/-- Serialization `str(soup)` on one node: text nodes minimally escaped, elements
rendered with their attributes, void elements self-closed. -/
def serialize : Html → String
  | .text s => ⟨escapeWith escCharText s.data⟩
  | .elem tag attrs children =>
    if voidTags.contains tag && children.isEmpty then
      "<" ++ tag ++ serializeAttrs attrs ++ "/>"
    else
      "<" ++ tag ++ serializeAttrs attrs ++ ">" ++ serializeList children ++ "</" ++ tag ++ ">"

/-- Serialization `str(soup)` over a list of sibling nodes. -/
def serializeList : List Html → String
  | [] => ""
  | h :: t => serialize h ++ serializeList t

end

mutual

/-- Snapshot `soup.find_all('img')` on one node: the attribute lists of all
`img` elements, in document order. -/
def findImgsOne : Html → List (List (String × String))
  | .text _ => []
  | .elem tag attrs children =>
    if tag = "img" then attrs :: findImgsList children else findImgsList children

/-- Snapshot `soup.find_all('img')` over a list of sibling nodes. -/
def findImgsList : List Html → List (List (String × String))
  | [] => []
  | h :: t => findImgsOne h ++ findImgsList t

end

mutual

/-- html.parser treats `img` as a void element, so an `img` node never
has children.  Trees produced by the parser satisfy this predicate; the
extraction theorems assume it. -/
def imgVoidOne : Html → Bool
  | .text _ => true
  | .elem tag _ children => (tag != "img" || children.isEmpty) && imgVoidList children

/-- Predicate `imgVoidOne` over a list of sibling nodes. -/
def imgVoidList : List Html → Bool
  | [] => true
  | h :: t => imgVoidOne h && imgVoidList t

end


/-! ## The embedded-object extractor (`extract_embedded_images`) -/

/-- One extracted inline image: the dict
`\x7b'filename', 'content', 'content_type'\x7d` appended to
`embedded_objects` in the source. -/
structure EmbeddedObject where
  filename : String
  content : List Nat
  content_type : String
deriving Repr, DecidableEq

/-- Base64 alphabet membership. -/
def isB64Char (c : Char) : Bool :=
  ('A' ≤ c && c ≤ 'Z') || ('a' ≤ c && c ≤ 'z') || ('0' ≤ c && c ≤ '9') || c = '+' || c = '/'

/-- Value of a base64 alphabet character. -/
def b64Val (c : Char) : Nat :=
  if 'A' ≤ c && c ≤ 'Z' then c.toNat - 65
  else if 'a' ≤ c && c ≤ 'z' then c.toNat - 97 + 26
  else if '0' ≤ c && c ≤ '9' then c.toNat - 48 + 52
  else if c = '+' then 62
  else 63

/-- Decode complete and final partial base64 quanta into bytes. -/
def b64Quanta : List Nat → List Nat
  | a :: b :: c :: d :: rest =>
    (a * 4 + b / 16) :: ((b % 16) * 16 + c / 4) :: ((c % 4) * 64 + d) :: b64Quanta rest
  | [a, b, c] => [a * 4 + b / 16, (b % 16) * 16 + c / 4]
  | [a, b] => [a * 4 + b / 16]
  | _ => []

/-- Models Python `base64.b64decode` in its default lenient mode:
characters outside the base64 alphabet are discarded, a `=` ends the
data, and decoding fails (`binascii.Error`, the caught exception of the
source) exactly when the number of data characters is 1 mod 4, or is
2 or 3 mod 4 with no padding present. -/
def b64decode (payload : String) : Option (List Nat) :=
  let kept := payload.data.filter (fun c => isB64Char c || c = '=')
  let dataChars := kept.takeWhile (fun c => c != '=')
  let pads := kept.length - dataChars.length
  if dataChars.length % 4 = 1 then none
  else if dataChars.length % 4 != 0 && pads = 0 then none
  else some (b64Quanta (dataChars.map b64Val))

/-- Models `re.match(r'data:image/([^;]+);base64,(.+)', src)` from lines
47-50: group 1 is the non-empty run of non-`;` characters after
`data:image/`, then the literal `;base64,` must follow, and group 2 is
the non-empty run of characters up to the first newline (`.` does not
match a newline).  Returns `(image_type, base64_data)`. -/
def parseDataUri (src : String) : Option (String × String) :=
  if pyStartsWith src "data:image/" then
    let rest := src.data.drop 11
    let sub := rest.takeWhile (fun c => c != ';')
    let after := rest.dropWhile (fun c => c != ';')
    if sub.isEmpty then none
    else if leadsWith "base64,".data (after.drop 1) then
      let payload := (after.drop 8).takeWhile (fun c => c != '\n')
      if payload.isEmpty then none else some (⟨sub⟩, ⟨payload⟩)
    else none
  else none

/-- The generated filename `f"embedded_image_\x7bidx + 1\x7d.\x7bimage_type\x7d"`
(line 56); `idx` is the 0-based position among all `img` tags. -/
def filenameFor (idx : Nat) (imageType : String) : String :=
  "embedded_image_" ++ decRepr (idx + 1) ++ "." ++ imageType

/-- Python `src.replace('cid:', '')`: every occurrence of `cid:` is
removed, scanning left to right (line 76). -/
def removeCidChars : List Char → List Char
  | 'c' :: 'i' :: 'd' :: ':' :: rest => removeCidChars rest
  | c :: rest => c :: removeCidChars rest
  | [] => []

/-- Python `src.replace('cid:', '')` on `String`. -/
def removeCid (s : String) : String := ⟨removeCidChars s.data⟩

/-- Lines 76-80: the clean filename derived from a `cid:` src:
`cid = src.replace('cid:', '')` then
`cid.split('@')[0] if '@' in cid else cid`. -/
def cidCleanName (src : String) : String :=
  let cid := removeCid src
  if cid.data.contains '@' then ⟨cid.data.takeWhile (fun c => c != '@')⟩ else cid

/-- The body of the `for idx, img in enumerate(img_tags)` loop (lines
39-81) for a single `img` tag: returns the replacement text (`none`
when the element is left untouched) and the extracted object, if any.
The branches: a `data:image/` src is parsed and decoded, and on success
replaced by `!filename|thumbnail!` with an object appended; a decode or
parse failure leaves the element untouched (the caught exception / the
failed `re.match`); a `cid:` src is replaced by
`!clean_filename|thumbnail!` with no object; anything else is left
untouched. -/
def processImg (idx : Nat) (attrs : List (String × String)) : Option String × Option EmbeddedObject :=
  let src := getAttr attrs "src"
  if pyStartsWith src "data:image/" then
    match parseDataUri src with
    | some (imageType, base64Data) =>
      match b64decode base64Data with
      | some imageBytes =>
        let filename := filenameFor idx imageType
        (some ("!" ++ filename ++ "|thumbnail!"),
         some { filename := filename, content := imageBytes, content_type := "image/" ++ imageType })
      | none => (none, none)
    | none => (none, none)
  else if pyStartsWith src "cid:" then
    (some ("!" ++ cidCleanName src ++ "|thumbnail!"), none)
  else (none, none)

mutual

/-- The extraction traversal on one node, with `n` the number of `img`
elements already seen.  An `img` element consumes one index and is
replaced by `processImg`'s text when there is one; any other element is
recursed into. -/
def extractOne (n : Nat) : Html → Html × List EmbeddedObject × Nat
  | .text s => (.text s, [], n)
  | .elem tag attrs children =>
    if tag = "img" then
      let pr := processImg n attrs
      (pr.1.elim (Html.elem tag attrs children) Html.text, pr.2.toList, n + 1)
    else
      let r := extractList n children
      (.elem tag attrs r.1, r.2.1, r.2.2)

/-- The extraction traversal over a list of sibling nodes. -/
def extractList (n : Nat) : List Html → List Html × List EmbeddedObject × Nat
  | [] => ([], [], n)
  | h :: t =>
    let r1 := extractOne n h
    let r2 := extractList r1.2.2 t
    (r1.1 :: r2.1, r1.2.1 ++ r2.2.1, r2.2.2)

end

/-- Function `extract_embedded_images` (lines 14-86) at the tree level: process
every `img` tag in document order, then serialize the mutated tree back
to a string.  (The `if not html_body` guard is the `doc = []` case,
where this returns `("", [])` just as the source returns the empty
input unchanged.) -/
def extract_embedded_images (doc : List Html) : String × List EmbeddedObject :=
  let r := extractList 0 doc
  (serializeList r.1, r.2.1)

/-- Function `extract_embedded_objects_from_email` (lines 89-106).  Parsing the
content string into a tree is the external library's job, so the html
branch receives `parsed`, the parse of `content`, alongside. -/
def extract_embedded_objects_from_email (content : String) (contentType : String)
    (parsed : List Html) : String × List EmbeddedObject :=
  if contentType = "html" then extract_embedded_images parsed
  else (content, [])


/-! ## The markup translator (`convert_html_to_jira_markup`) -/

/-- A conversion pass rule: given the parent's tag name, the element's
tag name, attributes and (current) children, return the replacement
text when the pass replaces the element (`tag.replace_with(...)`), or
`none` to leave it in place. -/
def Rule : Type := String → String → List (String × String) → List Html → Option String

mutual

/-- One `for tag in soup.find_all(...): tag.replace_with(...)` pass as a
top-down traversal (see the header comment): a replaced element's
descendants are dropped, other elements are recursed into with
themselves as parent. -/
def applyRule (rule : Rule) (parent : String) : Html → Html
  | .text s => .text s
  | .elem tag attrs children =>
    match rule parent tag attrs children with
    | some s => .text s
    | none => .elem tag attrs (applyRuleList rule tag children)

/-- One pass of `applyRule` over a list of sibling nodes. -/
def applyRuleList (rule : Rule) (parent : String) : List Html → List Html
  | [] => []
  | h :: t => applyRule rule parent h :: applyRuleList rule parent t

end

/-- Lines 136-142: the filename derived from an `img` src: the part
after the last `/` when there is one, then cut at the first `?` and the
first `#`. -/
def imgSrcFilename (src : String) : String :=
  let f := if src.data.contains '/' then ((src.data.reverse.takeWhile (fun c => c != '/')).reverse : List Char) else src.data
  ⟨(f.takeWhile (fun c => c != '?')).takeWhile (fun c => c != '#')⟩

/-- Lines 129-150: remaining `img` tags become thumbnail references
(captioned by `alt` when present), or `alt`/`[Image]` without a src. -/
def imgRule : Rule := fun _parent tag attrs _children =>
  if tag = "img" then
    let src := getAttr attrs "src"
    let alt := getAttr attrs "alt"
    if src != "" then
      let filename := imgSrcFilename src
      if alt != "" then some ("!" ++ filename ++ "|alt=" ++ alt ++ ",thumbnail!")
      else some ("!" ++ filename ++ "|thumbnail!")
    else some (if alt != "" then alt else "[Image]")
  else none

/-- Lines 153-155: `h<i>` becomes `h<i>. <text>\n` (one pass per level,
`i` from 1 to 6; `hi` is the tag name `f"h\x7bi\x7d"`). -/
def headingRule (hi : String) : Rule := fun _parent tag _attrs children =>
  if tag = hi then some (hi ++ ". " ++ getTextList children ++ "\n")
  else none

/-- Lines 158-159: `b`/`strong` become `*text*`. -/
def boldRule : Rule := fun _parent tag _attrs children =>
  if tag = "b" || tag = "strong" then some ("*" ++ getTextList children ++ "*") else none

/-- Lines 162-163: `i`/`em` become `_text_`. -/
def italicRule : Rule := fun _parent tag _attrs children =>
  if tag = "i" || tag = "em" then some ("_" ++ getTextList children ++ "_") else none

/-- Lines 166-167: `u` becomes `+text+`. -/
def underlineRule : Rule := fun _parent tag _attrs children =>
  if tag = "u" then some ("+" ++ getTextList children ++ "+") else none

/-- Lines 170-171: `s`/`strike`/`del` become `-text-`. -/
def strikeRule : Rule := fun _parent tag _attrs children =>
  if tag = "s" || tag = "strike" || tag = "del" then some ("-" ++ getTextList children ++ "-")
  else none

/-- Lines 174-180: `a` becomes `[text|href]` when `href` is non-empty,
else its text. -/
def linkRule : Rule := fun _parent tag attrs children =>
  if tag = "a" then
    let href := getAttr attrs "href"
    let text := getTextList children
    some (if href != "" then "[" ++ text ++ "|" ++ href ++ "]" else text)
  else none

/-- The list items of lines 185-186 / 192-193: each direct `li` child
contributes `<marker><stripped text>`. -/
def listItems (marker : String) (children : List Html) : List String :=
  children.filterMap (fun h =>
    match h with
    | .elem "li" _ cs => some (marker ++ pyStripStr (getTextList cs))
    | _ => none)

/-- Lines 183-187: `ul` becomes `\n` + `\n`-joined `* `-prefixed direct
items + `\n`. -/
def ulRule : Rule := fun _parent tag _attrs children =>
  if tag = "ul" then some ("\n" ++ joinNl (listItems "* " children) ++ "\n") else none

/-- Lines 190-194: `ol` becomes the same with `# ` markers. -/
def olRule : Rule := fun _parent tag _attrs children =>
  if tag = "ol" then some ("\n" ++ joinNl (listItems "# " children) ++ "\n") else none

/-- Lines 197-199: `pre` becomes `\x7bcode\x7d\n<text>\n\x7bcode\x7d\n`. -/
def preRule : Rule := fun _parent tag _attrs children =>
  if tag = "pre" then some ("\x7bcode\x7d\n" ++ getTextList children ++ "\n\x7bcode\x7d\n") else none

/-- Lines 202-204: `code` becomes `\x7b\x7btext\x7d\x7d` unless its parent is `pre`
(`tag.parent.name != 'pre'`). -/
def codeRule : Rule := fun parent tag _attrs children =>
  if tag = "code" && parent != "pre" then some ("\x7b\x7b" ++ getTextList children ++ "\x7d\x7d")
  else none

/-- Lines 207-210: `blockquote` text is stripped, split into lines, and
every line is prefixed `bq. `. -/
def quoteRule : Rule := fun _parent tag _attrs children =>
  if tag = "blockquote" then
    let lines := pySplitNl (pyStripStr (getTextList children))
    some ("\n" ++ joinNl (lines.map (fun line => "bq. " ++ line)) ++ "\n")
  else none

/-- Lines 213-214: `br` becomes a newline. -/
def brRule : Rule := fun _parent tag _attrs _children =>
  if tag = "br" then some "\n" else none

/-- Lines 217-218: `p` becomes `\n<text>\n`. -/
def pRule : Rule := fun _parent tag _attrs children =>
  if tag = "p" then some ("\n" ++ getTextList children ++ "\n") else none

/-- Lines 221-222: `div` becomes `\n<text>\n`. -/
def divRule : Rule := fun _parent tag _attrs children =>
  if tag = "div" then some ("\n" ++ getTextList children ++ "\n") else none

/-- Function `convert_html_to_jira_markup` (lines 109-236) at the tree level:
the passes in source order (images, h1..h6, bold, italic, underline,
strikethrough, links, ul, ol, pre, code, blockquote, br, p, div), then
`soup.get_text()` and the final normalization.  The top-level parent is
BeautifulSoup's document object, named `[document]`. -/
def convert_html_to_jira_markup (doc : List Html) : String :=
  let d := applyRuleList imgRule "[document]" doc
  let d := applyRuleList (headingRule "h1") "[document]" d
  let d := applyRuleList (headingRule "h2") "[document]" d
  let d := applyRuleList (headingRule "h3") "[document]" d
  let d := applyRuleList (headingRule "h4") "[document]" d
  let d := applyRuleList (headingRule "h5") "[document]" d
  let d := applyRuleList (headingRule "h6") "[document]" d
  let d := applyRuleList boldRule "[document]" d
  let d := applyRuleList italicRule "[document]" d
  let d := applyRuleList underlineRule "[document]" d
  let d := applyRuleList strikeRule "[document]" d
  let d := applyRuleList linkRule "[document]" d
  let d := applyRuleList ulRule "[document]" d
  let d := applyRuleList olRule "[document]" d
  let d := applyRuleList preRule "[document]" d
  let d := applyRuleList codeRule "[document]" d
  let d := applyRuleList quoteRule "[document]" d
  let d := applyRuleList brRule "[document]" d
  let d := applyRuleList pRule "[document]" d
  let d := applyRuleList divRule "[document]" d
  pyNormalize (getTextList d)

/-- The translator as called on a raw body: the `if not html_content:
return ''` guard of lines 122-123 (`None` and the empty string are both
falsy); a non-empty string is parsed by BeautifulSoup, so the parsed
document comes alongside. -/
def convertBody : Option String → List Html → String
  | none, _ => ""
  | some s, doc => if s = "" then "" else convert_html_to_jira_markup doc

/-- The translator's twenty passes by themselves (the tree just before
`soup.get_text()` on line 225): `convert_html_to_jira_markup` is
exactly `pyNormalize` of the flattened text of this tree. -/
def translatorPasses (doc : List Html) : List Html :=
  let d := applyRuleList imgRule "[document]" doc
  let d := applyRuleList (headingRule "h1") "[document]" d
  let d := applyRuleList (headingRule "h2") "[document]" d
  let d := applyRuleList (headingRule "h3") "[document]" d
  let d := applyRuleList (headingRule "h4") "[document]" d
  let d := applyRuleList (headingRule "h5") "[document]" d
  let d := applyRuleList (headingRule "h6") "[document]" d
  let d := applyRuleList boldRule "[document]" d
  let d := applyRuleList italicRule "[document]" d
  let d := applyRuleList underlineRule "[document]" d
  let d := applyRuleList strikeRule "[document]" d
  let d := applyRuleList linkRule "[document]" d
  let d := applyRuleList ulRule "[document]" d
  let d := applyRuleList olRule "[document]" d
  let d := applyRuleList preRule "[document]" d
  let d := applyRuleList codeRule "[document]" d
  let d := applyRuleList quoteRule "[document]" d
  let d := applyRuleList brRule "[document]" d
  let d := applyRuleList pRule "[document]" d
  let d := applyRuleList divRule "[document]" d
  d

/-- The fourteen passes that run before the `pre` pass (images,
h1..h6, bold, italic, underline, strikethrough, links, ul, ol), as
they act on the children of a `pre` element (parent name `pre`): this
is the state of a `pre` element's content at the moment line 198 reads
its text. -/
def preInnerPasses (cs : List Html) : List Html :=
  let d := applyRuleList imgRule "pre" cs
  let d := applyRuleList (headingRule "h1") "pre" d
  let d := applyRuleList (headingRule "h2") "pre" d
  let d := applyRuleList (headingRule "h3") "pre" d
  let d := applyRuleList (headingRule "h4") "pre" d
  let d := applyRuleList (headingRule "h5") "pre" d
  let d := applyRuleList (headingRule "h6") "pre" d
  let d := applyRuleList boldRule "pre" d
  let d := applyRuleList italicRule "pre" d
  let d := applyRuleList underlineRule "pre" d
  let d := applyRuleList strikeRule "pre" d
  let d := applyRuleList linkRule "pre" d
  let d := applyRuleList ulRule "pre" d
  let d := applyRuleList olRule "pre" d
  d

/-- The 1-based index encoded in a generated embedded-image filename:
the numeric value of the digit run after `embedded_image_` (15
characters). -/
def fnIdxF (s : String) : Nat :=
  decVal ((s.data.drop 15).takeWhile (fun c => c.isDigit))

/-! ## Lemmas: runs, collapsing and stripping -/

theorem runOK_cons_self (c : Char) (m k : Nat) (rest : List Char) :
    runOK c m k (c :: rest) = (decide (0 < k) && runOK c m (k - 1) rest) := by
  simp [runOK]

theorem runOK_cons_other (c : Char) (m k : Nat) (d : Char) (rest : List Char) (h : d ≠ c) :
    runOK c m k (d :: rest) = runOK c m m rest := by
  simp [runOK, h]

theorem runOK_mono (c : Char) (m : Nat) :
    ∀ (cs : List Char) (k k' : Nat), k ≤ k' → runOK c m k cs = true → runOK c m k' cs = true
  | [], _, _, _, _ => rfl
  | d :: rest, k, k', hkk, h => by
    by_cases hd : d = c
    · rw [hd] at h ⊢
      rw [runOK_cons_self] at h ⊢
      rcases Bool.and_eq_true_iff.mp h with ⟨h1, h2⟩
      have h1' : 0 < k := of_decide_eq_true h1
      refine Bool.and_eq_true_iff.mpr ⟨decide_eq_true (by omega), ?_⟩
      exact runOK_mono c m rest (k - 1) (k' - 1) (by omega) h2
    · rw [runOK_cons_other c m k d rest hd] at h
      rw [runOK_cons_other c m k' d rest hd]
      exact h

theorem runOK_replicate_self (c : Char) (m : Nat) :
    ∀ (j k : Nat) (l : List Char), j ≤ k → runOK c m (k - j) l = true →
      runOK c m k (List.replicate j c ++ l) = true
  | 0, k, l, _, h => by simpa using h
  | j + 1, k, l, hj, h => by
    rw [List.replicate_succ, List.cons_append, runOK_cons_self]
    refine Bool.and_eq_true_iff.mpr ⟨decide_eq_true (by omega), ?_⟩
    refine runOK_replicate_self c m j (k - 1) l (by omega) ?_
    have : k - 1 - j = k - (j + 1) := by omega
    rw [this]
    exact h

theorem runOK_replicate_other (c c' : Char) (m : Nat) (hcc : c' ≠ c) :
    ∀ (j : Nat) (l : List Char) (k : Nat), 1 ≤ j → runOK c m m l = true →
      runOK c m k (List.replicate j c' ++ l) = true
  | 0, _, _, h0, _ => absurd h0 (by omega)
  | j + 1, l, k, _, h => by
    rw [List.replicate_succ, List.cons_append, runOK_cons_other c m k c' _ hcc]
    cases j with
    | zero => simpa using h
    | succ j' => exact runOK_replicate_other c c' m hcc (j' + 1) l m (by omega) h

theorem runOK_collapseRunsAux_self (c : Char) (m : Nat) :
    ∀ (cs : List Char) (p : Nat), runOK c m m (collapseRunsAux c m p cs) = true
  | [], p => by
    simp only [collapseRunsAux]
    have := runOK_replicate_self c m (min p m) m [] (Nat.min_le_right p m) rfl
    simpa using this
  | d :: rest, p => by
    by_cases hd : d = c
    · rw [hd]
      simp only [collapseRunsAux, if_pos rfl]
      exact runOK_collapseRunsAux_self c m rest (p + 1)
    · simp only [collapseRunsAux, if_neg hd]
      refine runOK_replicate_self c m (min p m) m _ (Nat.min_le_right p m) ?_
      rw [runOK_cons_other c m _ d _ hd]
      exact runOK_collapseRunsAux_self c m rest 0

theorem collapseRunsAux_fixed (c : Char) (m : Nat) :
    ∀ (cs : List Char) (p : Nat), p ≤ m → runOK c m (m - p) cs = true →
      collapseRunsAux c m p cs = List.replicate p c ++ cs
  | [], p, hp, _ => by
    simp [collapseRunsAux, Nat.min_eq_left hp]
  | d :: rest, p, hp, h => by
    by_cases hd : d = c
    · rw [hd] at h ⊢
      rw [runOK_cons_self] at h
      rcases Bool.and_eq_true_iff.mp h with ⟨h1, h2⟩
      have h1' : 0 < m - p := of_decide_eq_true h1
      have hrec := collapseRunsAux_fixed c m rest (p + 1) (by omega)
        (by
          have : m - p - 1 = m - (p + 1) := by omega
          rw [← this]; exact h2)
      simp only [collapseRunsAux, if_pos rfl, hrec, List.replicate_succ']
      simp
    · rw [runOK_cons_other c m _ d rest hd] at h
      have hrec := collapseRunsAux_fixed c m rest 0 (Nat.zero_le m) (by simpa using h)
      simp only [collapseRunsAux, if_neg hd, hrec, Nat.min_eq_left hp]
      simp

theorem collapseRuns_fixed (c : Char) (m : Nat) (cs : List Char)
    (h : runOK c m m cs = true) : collapseRuns c m cs = cs := by
  have := collapseRunsAux_fixed c m cs 0 (Nat.zero_le m) (by simpa using h)
  simpa [collapseRuns] using this

mutual

theorem runOK_collapse_other (c c' : Char) (m m' : Nat) (hcc : c ≠ c') (hm : 1 ≤ m)
    (hm' : 1 ≤ m') :
    ∀ (cs : List Char) (k : Nat), k ≤ m → runOK c m k cs = true →
      runOK c m k (collapseRunsAux c' m' 0 cs) = true
  | [], _, _, _ => by
    simp only [collapseRunsAux, Nat.zero_min, List.replicate_zero]
    rfl
  | d :: rest, k, hk, h => by
    by_cases hd' : d = c'
    · rw [hd'] at h ⊢
      have hrest : runOK c m m rest = true := by
        rw [runOK_cons_other c m k c' rest (Ne.symm hcc)] at h; exact h
      simp only [collapseRunsAux, if_pos rfl]
      exact runOK_collapse_other_pending c c' m m' hcc hm hm' rest 1 k (by omega) hrest
    · by_cases hd : d = c
      · rw [hd] at h ⊢
        rw [runOK_cons_self] at h
        rcases Bool.and_eq_true_iff.mp h with ⟨h1, h2⟩
        have hne : ¬ c = c' := hcc
        simp only [collapseRunsAux, if_neg hne, Nat.zero_min, List.replicate_zero,
          List.nil_append]
        rw [runOK_cons_self]
        refine Bool.and_eq_true_iff.mpr ⟨h1, ?_⟩
        have h1' : 0 < k := of_decide_eq_true h1
        exact runOK_collapse_other c c' m m' hcc hm hm' rest (k - 1) (by omega) h2
      · rw [runOK_cons_other c m k d rest hd] at h
        simp only [collapseRunsAux, if_neg hd', Nat.zero_min, List.replicate_zero,
          List.nil_append]
        rw [runOK_cons_other c m k d _ hd]
        exact runOK_collapse_other c c' m m' hcc hm hm' rest m (Nat.le_refl m) h
termination_by cs _ => cs.length

theorem runOK_collapse_other_pending (c c' : Char) (m m' : Nat) (hcc : c ≠ c') (hm : 1 ≤ m)
    (hm' : 1 ≤ m') :
    ∀ (rest : List Char) (p k : Nat), 1 ≤ p → runOK c m m rest = true →
      runOK c m k (collapseRunsAux c' m' p rest) = true
  | [], p, k, hp, _ => by
    simp only [collapseRunsAux]
    have hmin : 1 ≤ min p m' := Nat.le_min.mpr ⟨hp, hm'⟩
    have := runOK_replicate_other c c' m (Ne.symm hcc) (min p m') [] k hmin rfl
    simpa using this
  | d :: rest, p, k, hp, h => by
    by_cases hd' : d = c'
    · rw [hd'] at h
      have hrest : runOK c m m rest = true := by
        rw [runOK_cons_other c m m c' rest (Ne.symm hcc)] at h; exact h
      rw [hd']
      simp only [collapseRunsAux, if_pos rfl]
      exact runOK_collapse_other_pending c c' m m' hcc hm hm' rest (p + 1) k (by omega) hrest
    · simp only [collapseRunsAux, if_neg hd']
      have hmin : 1 ≤ min p m' := Nat.le_min.mpr ⟨hp, hm'⟩
      refine runOK_replicate_other c c' m (Ne.symm hcc) (min p m')
        (d :: collapseRunsAux c' m' 0 rest) k hmin ?_
      by_cases hd : d = c
      · rw [hd] at h ⊢
        rw [runOK_cons_self] at h
        rcases Bool.and_eq_true_iff.mp h with ⟨h1, h2⟩
        rw [runOK_cons_self]
        refine Bool.and_eq_true_iff.mpr ⟨h1, ?_⟩
        exact runOK_collapse_other c c' m m' hcc hm hm' rest (m - 1) (by omega) h2
      · rw [runOK_cons_other c m m d rest hd] at h
        rw [runOK_cons_other c m m d _ hd]
        exact runOK_collapse_other c c' m m' hcc hm hm' rest m (Nat.le_refl m) h
termination_by rest _ _ => rest.length

end

theorem runOK_dropWhile (c : Char) (m : Nat) (p : Char → Bool) :
    ∀ (cs : List Char), runOK c m m cs = true → runOK c m m (cs.dropWhile p) = true
  | [], _ => rfl
  | d :: rest, h => by
    rw [List.dropWhile_cons]
    by_cases hp : p d = true
    · simp only [hp, if_true]
      have hrest : runOK c m m rest = true := by
        by_cases hd : d = c
        · rw [hd] at h
          rw [runOK_cons_self] at h
          rcases Bool.and_eq_true_iff.mp h with ⟨_, h2⟩
          exact runOK_mono c m rest (m - 1) m (by omega) h2
        · rw [runOK_cons_other c m m d rest hd] at h; exact h
      exact runOK_dropWhile c m p rest hrest
    · simp only [hp, if_false]
      exact h

theorem runOK_rstrip (c : Char) (m : Nat) :
    ∀ (cs : List Char) (k : Nat), runOK c m k cs = true → runOK c m k (rstripChars cs) = true
  | [], _, _ => rfl
  | d :: rest, k, h => by
    cases hr : rstripChars rest with
    | nil =>
      simp only [rstripChars, hr]
      by_cases hsp : isPySpace d
      · simp only [hsp, if_true]; rfl
      · simp only [hsp, Bool.false_eq_true, if_false]
        by_cases hd : d = c
        · rw [hd] at h ⊢
          rw [runOK_cons_self] at h
          rcases Bool.and_eq_true_iff.mp h with ⟨h1, _⟩
          rw [runOK_cons_self]
          exact Bool.and_eq_true_iff.mpr ⟨h1, rfl⟩
        · rw [runOK_cons_other c m k d [] hd]; rfl
    | cons a r =>
      simp only [rstripChars, hr]
      by_cases hd : d = c
      · rw [hd] at h ⊢
        rw [runOK_cons_self] at h ⊢
        rcases Bool.and_eq_true_iff.mp h with ⟨h1, h2⟩
        refine Bool.and_eq_true_iff.mpr ⟨h1, ?_⟩
        have := runOK_rstrip c m rest (k - 1) h2
        rw [hr] at this
        exact this
      · rw [runOK_cons_other c m k d rest hd] at h
        rw [runOK_cons_other c m k d _ hd]
        have := runOK_rstrip c m rest m h
        rw [hr] at this
        exact this

theorem dropWhile_head_false (p : Char → Bool) :
    ∀ (cs : List Char) (c : Char), (cs.dropWhile p).head? = some c → p c = false
  | [], c, h => by simp at h
  | d :: rest, c, h => by
    rw [List.dropWhile_cons] at h
    by_cases hp : p d = true
    · simp only [hp, if_true] at h
      exact dropWhile_head_false p rest c h
    · simp only [hp, Bool.false_eq_true, if_false, List.head?_cons] at h
      injection h with h2
      rw [← h2]
      simpa using hp

theorem rstrip_getLast_false :
    ∀ (cs : List Char) (c : Char), (rstripChars cs).getLast? = some c → isPySpace c = false
  | [], c, h => by simp [rstripChars] at h
  | d :: rest, c, h => by
    cases hr : rstripChars rest with
    | nil =>
      simp only [rstripChars, hr] at h
      by_cases hsp : isPySpace d
      · simp [hsp] at h
      · simp only [hsp, Bool.false_eq_true, if_false, List.getLast?_singleton] at h
        injection h with h2
        rw [← h2]
        simpa using hsp
    | cons a r =>
      simp only [rstripChars, hr, List.getLast?_cons_cons] at h
      refine rstrip_getLast_false rest c ?_
      rw [hr]
      exact h

theorem rstrip_head :
    ∀ (cs : List Char), rstripChars cs = [] ∨ (rstripChars cs).head? = cs.head?
  | [] => Or.inl rfl
  | d :: rest => by
    cases hr : rstripChars rest with
    | nil =>
      by_cases hsp : isPySpace d
      · left; simp [rstripChars, hr, hsp]
      · right; simp [rstripChars, hr, hsp]
    | cons a r =>
      right; simp [rstripChars, hr]

theorem dropWhile_eq_self (p : Char → Bool) :
    ∀ (cs : List Char), (∀ c, cs.head? = some c → p c = false) → cs.dropWhile p = cs
  | [], _ => rfl
  | d :: rest, h => by
    have := h d (by simp)
    simp [List.dropWhile_cons, this]

theorem rstripChars_cons (d : Char) (rest : List Char) :
    rstripChars (d :: rest) =
      match rstripChars rest with
      | [] => if isPySpace d = true then [] else [d]
      | x :: xs => d :: x :: xs := by
  cases hr : rstripChars rest with
  | nil => simp only [rstripChars, hr]
  | cons a r => simp only [rstripChars, hr]

theorem rstrip_eq_self :
    ∀ (cs : List Char), (∀ c, cs.getLast? = some c → isPySpace c = false) → rstripChars cs = cs
  | [], _ => rfl
  | d :: rest, h => by
    cases rest with
    | nil =>
      have := h d (by simp)
      simp [rstripChars, this]
    | cons a r =>
      have hrest : rstripChars (a :: r) = a :: r := by
        refine rstrip_eq_self (a :: r) ?_
        intro c hc
        refine h c ?_
        rw [List.getLast?_cons_cons]
        exact hc
      rw [rstripChars_cons, hrest]

/-! ## Lemmas: the final normalization as a whole -/

theorem pyNormalize_data (s : String) :
    (pyNormalize s).data =
      rstripChars (List.dropWhile isPySpace
        (collapseRunsAux ' ' 1 0 (collapseRunsAux '\n' 2 0 s.data))) := rfl

theorem pyNormalize_runOK_nl (s : String) : runOK '\n' 2 2 (pyNormalize s).data = true := by
  rw [pyNormalize_data]
  refine runOK_rstrip '\n' 2 _ 2 ?_
  refine runOK_dropWhile '\n' 2 isPySpace _ ?_
  refine runOK_collapse_other '\n' ' ' 2 1 (by decide) (by omega) (by omega) _ 2 (Nat.le_refl 2) ?_
  exact runOK_collapseRunsAux_self '\n' 2 s.data 0

theorem pyNormalize_runOK_sp (s : String) : runOK ' ' 1 1 (pyNormalize s).data = true := by
  rw [pyNormalize_data]
  refine runOK_rstrip ' ' 1 _ 1 ?_
  refine runOK_dropWhile ' ' 1 isPySpace _ ?_
  exact runOK_collapseRunsAux_self ' ' 1 _ 0

theorem pyStrip_head_false (cs : List Char) :
    ∀ c, (pyStrip cs).head? = some c → isPySpace c = false := by
  intro c h
  unfold pyStrip at h
  rcases rstrip_head (lstripChars cs) with he | hh
  · rw [he] at h; simp at h
  · rw [hh] at h
    unfold lstripChars at h
    exact dropWhile_head_false isPySpace cs c h

theorem pyStrip_last_false (cs : List Char) :
    ∀ c, (pyStrip cs).getLast? = some c → isPySpace c = false := by
  intro c h
  unfold pyStrip at h
  exact rstrip_getLast_false (lstripChars cs) c h

theorem pyNormalize_head (s : String) :
    ∀ c, (pyNormalize s).data.head? = some c → isPySpace c = false :=
  pyStrip_head_false (collapseSpaces (collapseNewlines s)).data

theorem pyNormalize_last (s : String) :
    ∀ c, (pyNormalize s).data.getLast? = some c → isPySpace c = false :=
  pyStrip_last_false (collapseSpaces (collapseNewlines s)).data

theorem pyStrip_eq_self (cs : List Char)
    (hh : ∀ c, cs.head? = some c → isPySpace c = false)
    (hl : ∀ c, cs.getLast? = some c → isPySpace c = false) : pyStrip cs = cs := by
  unfold pyStrip lstripChars
  rw [dropWhile_eq_self isPySpace cs hh]
  exact rstrip_eq_self cs hl

theorem pyNormalize_idem (s : String) : pyNormalize (pyNormalize s) = pyNormalize s := by
  have hnl := pyNormalize_runOK_nl s
  have hsp := pyNormalize_runOK_sp s
  have e1 : collapseNewlines (pyNormalize s) = pyNormalize s := by
    show String.mk (collapseRuns '\n' 2 (pyNormalize s).data) = pyNormalize s
    rw [collapseRuns_fixed '\n' 2 _ hnl]
  have e2 : collapseSpaces (pyNormalize s) = pyNormalize s := by
    show String.mk (collapseRuns ' ' 1 (pyNormalize s).data) = pyNormalize s
    rw [collapseRuns_fixed ' ' 1 _ hsp]
  have e3 : pyStripStr (pyNormalize s) = pyNormalize s := by
    show String.mk (pyStrip (pyNormalize s).data) = pyNormalize s
    rw [pyStrip_eq_self _ (pyNormalize_head s) (pyNormalize_last s)]
  calc pyNormalize (pyNormalize s)
      = pyStripStr (collapseSpaces (collapseNewlines (pyNormalize s))) := rfl
    _ = pyStripStr (collapseSpaces (pyNormalize s)) := by rw [e1]
    _ = pyStripStr (pyNormalize s) := by rw [e2]
    _ = pyNormalize s := e3

/-! ## Lemmas: decimal rendering of indices -/

theorem decDigit_isDigit (n : Nat) : (decDigit n).isDigit = true := by
  match n with
  | 0 => decide
  | 1 => decide
  | 2 => decide
  | 3 => decide
  | 4 => decide
  | 5 => decide
  | 6 => decide
  | 7 => decide
  | 8 => decide
  | x + 9 =>
    have h9 : decDigit (x + 9) = '9' := rfl
    rw [h9]
    decide

theorem decDigit_val (n : Nat) (h : n < 10) : (decDigit n).toNat - 48 = n := by
  interval_cases n <;> decide

theorem natToDecCore_spec :
    ∀ (fuel n : Nat) (acc : List Char), n < fuel →
      ∃ ds, natToDecCore fuel n acc = ds ++ acc ∧ ds ≠ [] ∧
        (∀ c ∈ ds, c.isDigit = true) ∧
        ∀ a, List.foldl (fun x c => x * 10 + (c.toNat - 48)) a ds = a * 10 ^ ds.length + n
  | 0, n, acc, h => absurd h (by omega)
  | fuel + 1, n, acc, h => by
    by_cases h10 : n < 10
    · refine ⟨[decDigit n], ?_, by simp, ?_, ?_⟩
      · simp [natToDecCore, h10]
      · intro c hc
        simp at hc
        rw [hc]
        exact decDigit_isDigit n
      · intro a
        simp [decDigit_val n h10]
    · have hfuel : n / 10 < fuel := by omega
      obtain ⟨ds, hds, hne, hdig, hval⟩ :=
        natToDecCore_spec fuel (n / 10) (decDigit (n % 10) :: acc) hfuel
      refine ⟨ds ++ [decDigit (n % 10)], ?_, by simp, ?_, ?_⟩
      · simp only [natToDecCore, if_neg h10]
        rw [hds, List.append_assoc]
        simp
      · intro c hc
        rcases List.mem_append.mp hc with hc | hc
        · exact hdig c hc
        · simp at hc
          rw [hc]
          exact decDigit_isDigit (n % 10)
      · intro a
        rw [List.foldl_append]
        simp only [List.foldl_cons, List.foldl_nil, hval a, List.length_append,
          List.length_singleton]
        rw [decDigit_val (n % 10) (by omega)]
        have : 10 ^ (ds.length + 1) = 10 ^ ds.length * 10 := by ring
        rw [this]
        have hmod := Nat.div_add_mod n 10
        calc (a * 10 ^ ds.length + n / 10) * 10 + n % 10
            = a * (10 ^ ds.length * 10) + (n / 10 * 10 + n % 10) := by ring
          _ = a * (10 ^ ds.length * 10) + n := by omega

theorem natToDec_digits (n : Nat) : ∀ c ∈ natToDec n, c.isDigit = true := by
  obtain ⟨ds, hds, _, hdig, _⟩ := natToDecCore_spec (n + 1) n [] (by omega)
  unfold natToDec
  rw [hds]
  simpa using hdig

theorem decVal_natToDec (n : Nat) : decVal (natToDec n) = n := by
  obtain ⟨ds, hds, _, _, hval⟩ := natToDecCore_spec (n + 1) n [] (by omega)
  unfold natToDec decVal
  rw [hds]
  simpa using hval 0

theorem takeWhile_digits_append (ds rest : List Char) (hdig : ∀ c ∈ ds, c.isDigit = true) :
    ((ds ++ '.' :: rest).takeWhile (fun c => c.isDigit)) = ds := by
  induction ds with
  | nil => simp [List.takeWhile_cons]
  | cons d t ih =>
    rw [List.cons_append, List.takeWhile_cons]
    have hd := hdig d (by simp)
    simp only [hd, if_true]
    rw [ih (fun c hc => hdig c (by simp [hc]))]

/-! ## Lemmas: the extractor -/

theorem filenameFor_data (idx : Nat) (t : String) :
    (filenameFor idx t).data = "embedded_image_".data ++ (natToDec (idx + 1) ++ '.' :: t.data) := by
  unfold filenameFor decRepr
  simp [String.data_append, List.append_assoc]

theorem fnIdxF_filenameFor (idx : Nat) (t : String) : fnIdxF (filenameFor idx t) = idx + 1 := by
  unfold fnIdxF
  rw [filenameFor_data]
  have hlen : (15 : Nat) = "embedded_image_".data.length := by decide
  rw [hlen, List.drop_left]
  rw [takeWhile_digits_append _ _ (natToDec_digits (idx + 1))]
  exact decVal_natToDec (idx + 1)

theorem processImg_obj (idx : Nat) (attrs : List (String × String)) (o : EmbeddedObject)
    (h : (processImg idx attrs).2 = some o) : ∃ t, o.filename = filenameFor idx t := by
  simp only [processImg] at h
  split at h
  · split at h
    next imageType base64Data heq =>
      split at h
      next bytes hbytes =>
        simp at h
        exact ⟨imageType, by rw [← h]⟩
      next hbytes => simp at h
    next heq => simp at h
  · split at h
    · simp at h
    · simp at h

theorem enumFrom_append_eq {α : Type} :
    ∀ (xs ys : List α) (n : Nat),
      List.enumFrom n (xs ++ ys) = List.enumFrom n xs ++ List.enumFrom (n + xs.length) ys
  | [], ys, n => by simp
  | x :: xs, ys, n => by
    simp only [List.cons_append, List.enumFrom_cons]
    rw [enumFrom_append_eq xs ys (n + 1)]
    simp only [List.length_cons]
    have : n + 1 + xs.length = n + (xs.length + 1) := by omega
    rw [this]

theorem filterMap_enumFrom_fnIdx :
    ∀ (l : List (List (String × String))) (n : Nat),
      (∀ o ∈ (List.enumFrom n l).filterMap (fun p => (processImg p.1 p.2).2),
        n + 1 ≤ fnIdxF o.filename ∧ fnIdxF o.filename ≤ n + l.length) ∧
      List.Pairwise (fun a b => fnIdxF a.filename < fnIdxF b.filename)
        ((List.enumFrom n l).filterMap (fun p => (processImg p.1 p.2).2))
  | [], n => by simp
  | attrs :: rest, n => by
    obtain ⟨ihb, ihp⟩ := filterMap_enumFrom_fnIdx rest (n + 1)
    rw [List.enumFrom_cons]
    cases ho : (processImg n attrs).2 with
    | none =>
      rw [List.filterMap_cons_none (by simpa using ho)]
      refine ⟨?_, ihp⟩
      intro o hmem
      have := ihb o hmem
      simp only [List.length_cons]
      omega
    | some o0 =>
      rw [List.filterMap_cons_some (by simpa using ho)]
      have hidx : fnIdxF o0.filename = n + 1 := by
        obtain ⟨t, ht⟩ := processImg_obj n attrs o0 ho
        rw [ht, fnIdxF_filenameFor]
      constructor
      · intro o hmem
        rcases List.mem_cons.mp hmem with rfl | hmem
        · simp only [List.length_cons]
          omega
        · have := ihb o hmem
          simp only [List.length_cons]
          omega
      · rw [List.pairwise_cons]
        refine ⟨?_, ihp⟩
        intro b hb
        have := (ihb b hb).1
        omega

mutual

theorem extractOne_spec : ∀ (h : Html) (n : Nat), imgVoidOne h = true →
    (extractOne n h).2.2 = n + (findImgsOne h).length ∧
    (extractOne n h).2.1 =
      (List.enumFrom n (findImgsOne h)).filterMap (fun p => (processImg p.1 p.2).2)
  | .text s, n, _ => by simp [extractOne, findImgsOne]
  | .elem tag attrs children, n, hv => by
    by_cases htag : tag = "img"
    · subst htag
      have hch : children = [] := by
        simp only [imgVoidOne, Bool.and_eq_true, Bool.or_eq_true] at hv
        rcases hv.1 with hne | hemp
        · simp at hne
        · exact List.isEmpty_iff.mp hemp
      subst hch
      simp only [extractOne, findImgsOne, findImgsList, List.length_cons,
        List.length_nil, List.enumFrom_cons, List.enumFrom_nil, if_pos, if_true,
        String.reduceEq, reduceIte]
      refine ⟨trivial, ?_⟩
      cases ho : (processImg n attrs).2 with
      | none =>
        rw [List.filterMap_cons_none (by simpa using ho), List.filterMap_nil]
        rfl
      | some o0 =>
        rw [List.filterMap_cons_some (by simpa using ho), List.filterMap_nil]
        rfl
    · have hvch : imgVoidList children = true := by
        simp only [imgVoidOne, Bool.and_eq_true] at hv
        exact hv.2
      obtain ⟨hc, ho⟩ := extractList_spec children n hvch
      simp only [extractOne, if_neg htag, findImgsOne, htag]
      exact ⟨hc, ho⟩

theorem extractList_spec : ∀ (l : List Html) (n : Nat), imgVoidList l = true →
    (extractList n l).2.2 = n + (findImgsList l).length ∧
    (extractList n l).2.1 =
      (List.enumFrom n (findImgsList l)).filterMap (fun p => (processImg p.1 p.2).2)
  | [], n, _ => by simp [extractList, findImgsList]
  | h :: t, n, hv => by
    have hv1 : imgVoidOne h = true := by
      simp only [imgVoidList, Bool.and_eq_true] at hv
      exact hv.1
    have hv2 : imgVoidList t = true := by
      simp only [imgVoidList, Bool.and_eq_true] at hv
      exact hv.2
    obtain ⟨hc1, ho1⟩ := extractOne_spec h n hv1
    obtain ⟨hc2, ho2⟩ := extractList_spec t ((extractOne n h).2.2) hv2
    simp only [extractList, findImgsList]
    constructor
    · rw [hc2, hc1, List.length_append]
      omega
    · rw [ho2, ho1, hc1]
      rw [enumFrom_append_eq, List.filterMap_append]

end

mutual

theorem extractOne_noImg : ∀ (h : Html) (n : Nat), findImgsOne h = [] →
    extractOne n h = (h, [], n)
  | .text s, _, _ => rfl
  | .elem tag attrs children, n, hf => by
    by_cases htag : tag = "img"
    · rw [findImgsOne, if_pos htag] at hf
      simp at hf
    · rw [findImgsOne, if_neg htag] at hf
      have := extractList_noImg children n hf
      simp only [extractOne, if_neg htag, this]

theorem extractList_noImg : ∀ (l : List Html) (n : Nat), findImgsList l = [] →
    extractList n l = (l, [], n)
  | [], _, _ => rfl
  | h :: t, n, hf => by
    rw [findImgsList] at hf
    rcases List.append_eq_nil.mp hf with ⟨hf1, hf2⟩
    have e1 := extractOne_noImg h n hf1
    have e2 := extractList_noImg t n hf2
    simp [extractList, e1, e2]

end

theorem extractList_append :
    ∀ (xs ys : List Html) (n : Nat),
      extractList n (xs ++ ys) =
        ((extractList n xs).1 ++ (extractList (extractList n xs).2.2 ys).1,
         (extractList n xs).2.1 ++ (extractList (extractList n xs).2.2 ys).2.1,
         (extractList (extractList n xs).2.2 ys).2.2)
  | [], ys, n => by simp [extractList]
  | x :: xs, ys, n => by
    have ih := extractList_append xs ys (extractOne n x).2.2
    rw [List.cons_append]
    simp only [extractList]
    rw [ih]
    simp [List.append_assoc]

/-! ## Lemmas: the translator -/

theorem applyRule_text (rule : Rule) (parent : String) (s : String) :
    applyRule rule parent (Html.text s) = Html.text s := by
  simp [applyRule]

theorem applyRuleList_text (rule : Rule) (parent : String) (s : String) :
    applyRuleList rule parent [Html.text s] = [Html.text s] := by
  simp [applyRuleList, applyRule]

theorem applyRuleList_single_none (rule : Rule) (parent tag : String)
    (attrs : List (String × String)) (ch : List Html)
    (hr : rule parent tag attrs ch = none) (hch : applyRuleList rule tag ch = ch) :
    applyRuleList rule parent [Html.elem tag attrs ch] = [Html.elem tag attrs ch] := by
  simp [applyRuleList, applyRule, hr, hch]

theorem applyRuleList_single_some (rule : Rule) (parent tag : String)
    (attrs : List (String × String)) (ch : List Html) (s : String)
    (hr : rule parent tag attrs ch = some s) :
    applyRuleList rule parent [Html.elem tag attrs ch] = [Html.text s] := by
  simp [applyRuleList, applyRule, hr]

theorem convert_text (s : String) :
    convert_html_to_jira_markup [Html.text s] = pyNormalize s := by
  simp only [convert_html_to_jira_markup]
  simp only [applyRuleList_text]
  simp only [getTextList, getText, String.append_empty]

theorem convert_nil : convert_html_to_jira_markup [] = "" := by
  decide

theorem listAppend_eq {α : Type} (xs ys : List α) : List.append xs ys = xs ++ ys := rfl

theorem applyRuleList_append (rule : Rule) (parent : String) :
    ∀ (xs ys : List Html),
      applyRuleList rule parent (xs ++ ys) =
        applyRuleList rule parent xs ++ applyRuleList rule parent ys
  | [], ys => by simp [applyRuleList]
  | x :: xs, ys => by
    simp only [List.cons_append, applyRuleList]
    rw [listAppend_eq, applyRuleList_append rule parent xs ys]

theorem getTextList_append :
    ∀ (xs ys : List Html), getTextList (xs ++ ys) = getTextList xs ++ getTextList ys
  | [], ys => by
    simp only [List.nil_append, getTextList]
    rw [String.empty_append]
  | x :: xs, ys => by
    simp only [List.cons_append, getTextList]
    rw [listAppend_eq, getTextList_append xs ys, String.append_assoc]

theorem applyRuleList_single_recurse (rule : Rule) (parent tag : String)
    (attrs : List (String × String))
    (hr : ∀ ch : List Html, rule parent tag attrs ch = none) (ch : List Html) :
    applyRuleList rule parent [Html.elem tag attrs ch] =
      [Html.elem tag attrs (applyRuleList rule tag ch)] := by
  simp [applyRuleList, applyRule, hr ch]

theorem preRule_applies (attrs : List (String × String)) (ch : List Html) :
    applyRuleList preRule "[document]" [Html.elem "pre" attrs ch] =
      [Html.text ("\x7bcode\x7d\n" ++ getTextList ch ++ "\n\x7bcode\x7d\n")] :=
  applyRuleList_single_some preRule "[document]" "pre" attrs ch _ rfl

theorem codeRule_applies (attrs : List (String × String)) (ch : List Html) :
    applyRuleList codeRule "[document]" [Html.elem "code" attrs ch] =
      [Html.text ("\x7b\x7b" ++ getTextList ch ++ "\x7d\x7d")] :=
  applyRuleList_single_some codeRule "[document]" "code" attrs ch _ rfl

theorem convert_eq_passes (doc : List Html) :
    convert_html_to_jira_markup doc = pyNormalize (getTextList (translatorPasses doc)) := rfl

theorem translatorPasses_append (xs ys : List Html) :
    translatorPasses (xs ++ ys) = translatorPasses xs ++ translatorPasses ys := by
  simp only [translatorPasses]
  rw [applyRuleList_append imgRule "[document]",
    applyRuleList_append (headingRule "h1") "[document]",
    applyRuleList_append (headingRule "h2") "[document]",
    applyRuleList_append (headingRule "h3") "[document]",
    applyRuleList_append (headingRule "h4") "[document]",
    applyRuleList_append (headingRule "h5") "[document]",
    applyRuleList_append (headingRule "h6") "[document]",
    applyRuleList_append boldRule "[document]",
    applyRuleList_append italicRule "[document]",
    applyRuleList_append underlineRule "[document]",
    applyRuleList_append strikeRule "[document]",
    applyRuleList_append linkRule "[document]",
    applyRuleList_append ulRule "[document]",
    applyRuleList_append olRule "[document]",
    applyRuleList_append preRule "[document]",
    applyRuleList_append codeRule "[document]",
    applyRuleList_append quoteRule "[document]",
    applyRuleList_append brRule "[document]",
    applyRuleList_append pRule "[document]",
    applyRuleList_append divRule "[document]"]

theorem translatorPasses_pre (attrs : List (String × String)) (cs : List Html) :
    translatorPasses [Html.elem "pre" attrs cs] =
      [Html.text ("\x7bcode\x7d\n" ++ getTextList (preInnerPasses cs) ++ "\n\x7bcode\x7d\n")] := by
  simp only [translatorPasses, preInnerPasses]
  rw [applyRuleList_single_recurse imgRule "[document]" "pre" attrs (fun _ => rfl),
    applyRuleList_single_recurse (headingRule "h1") "[document]" "pre" attrs (fun _ => rfl),
    applyRuleList_single_recurse (headingRule "h2") "[document]" "pre" attrs (fun _ => rfl),
    applyRuleList_single_recurse (headingRule "h3") "[document]" "pre" attrs (fun _ => rfl),
    applyRuleList_single_recurse (headingRule "h4") "[document]" "pre" attrs (fun _ => rfl),
    applyRuleList_single_recurse (headingRule "h5") "[document]" "pre" attrs (fun _ => rfl),
    applyRuleList_single_recurse (headingRule "h6") "[document]" "pre" attrs (fun _ => rfl),
    applyRuleList_single_recurse boldRule "[document]" "pre" attrs (fun _ => rfl),
    applyRuleList_single_recurse italicRule "[document]" "pre" attrs (fun _ => rfl),
    applyRuleList_single_recurse underlineRule "[document]" "pre" attrs (fun _ => rfl),
    applyRuleList_single_recurse strikeRule "[document]" "pre" attrs (fun _ => rfl),
    applyRuleList_single_recurse linkRule "[document]" "pre" attrs (fun _ => rfl),
    applyRuleList_single_recurse ulRule "[document]" "pre" attrs (fun _ => rfl),
    applyRuleList_single_recurse olRule "[document]" "pre" attrs (fun _ => rfl),
    preRule_applies]
  simp only [applyRuleList_text]

theorem preInnerPasses_text (s : String) :
    preInnerPasses [Html.text s] = [Html.text s] := by
  simp only [preInnerPasses, applyRuleList_text]

theorem preInnerPasses_code_text (attrs2 : List (String × String)) (s : String) :
    preInnerPasses [Html.elem "code" attrs2 [Html.text s]] =
      [Html.elem "code" attrs2 [Html.text s]] := by
  simp only [preInnerPasses]
  rw [applyRuleList_single_recurse imgRule "pre" "code" attrs2 (fun _ => rfl),
    applyRuleList_single_recurse (headingRule "h1") "pre" "code" attrs2 (fun _ => rfl),
    applyRuleList_single_recurse (headingRule "h2") "pre" "code" attrs2 (fun _ => rfl),
    applyRuleList_single_recurse (headingRule "h3") "pre" "code" attrs2 (fun _ => rfl),
    applyRuleList_single_recurse (headingRule "h4") "pre" "code" attrs2 (fun _ => rfl),
    applyRuleList_single_recurse (headingRule "h5") "pre" "code" attrs2 (fun _ => rfl),
    applyRuleList_single_recurse (headingRule "h6") "pre" "code" attrs2 (fun _ => rfl),
    applyRuleList_single_recurse boldRule "pre" "code" attrs2 (fun _ => rfl),
    applyRuleList_single_recurse italicRule "pre" "code" attrs2 (fun _ => rfl),
    applyRuleList_single_recurse underlineRule "pre" "code" attrs2 (fun _ => rfl),
    applyRuleList_single_recurse strikeRule "pre" "code" attrs2 (fun _ => rfl),
    applyRuleList_single_recurse linkRule "pre" "code" attrs2 (fun _ => rfl),
    applyRuleList_single_recurse ulRule "pre" "code" attrs2 (fun _ => rfl),
    applyRuleList_single_recurse olRule "pre" "code" attrs2 (fun _ => rfl)]
  simp only [applyRuleList_text]

theorem translatorPasses_code_text (attrs : List (String × String)) (s : String) :
    translatorPasses [Html.elem "code" attrs [Html.text s]] =
      [Html.text ("\x7b\x7b" ++ s ++ "\x7d\x7d")] := by
  simp only [translatorPasses]
  rw [applyRuleList_single_recurse imgRule "[document]" "code" attrs (fun _ => rfl),
    applyRuleList_single_recurse (headingRule "h1") "[document]" "code" attrs (fun _ => rfl),
    applyRuleList_single_recurse (headingRule "h2") "[document]" "code" attrs (fun _ => rfl),
    applyRuleList_single_recurse (headingRule "h3") "[document]" "code" attrs (fun _ => rfl),
    applyRuleList_single_recurse (headingRule "h4") "[document]" "code" attrs (fun _ => rfl),
    applyRuleList_single_recurse (headingRule "h5") "[document]" "code" attrs (fun _ => rfl),
    applyRuleList_single_recurse (headingRule "h6") "[document]" "code" attrs (fun _ => rfl),
    applyRuleList_single_recurse boldRule "[document]" "code" attrs (fun _ => rfl),
    applyRuleList_single_recurse italicRule "[document]" "code" attrs (fun _ => rfl),
    applyRuleList_single_recurse underlineRule "[document]" "code" attrs (fun _ => rfl),
    applyRuleList_single_recurse strikeRule "[document]" "code" attrs (fun _ => rfl),
    applyRuleList_single_recurse linkRule "[document]" "code" attrs (fun _ => rfl),
    applyRuleList_single_recurse ulRule "[document]" "code" attrs (fun _ => rfl),
    applyRuleList_single_recurse olRule "[document]" "code" attrs (fun _ => rfl),
    applyRuleList_single_recurse preRule "[document]" "code" attrs (fun _ => rfl)]
  simp only [applyRuleList_text]
  rw [codeRule_applies]
  simp only [applyRuleList_text, getTextList, getText, String.append_empty]

theorem getTextList_single_text (t : String) : getTextList [Html.text t] = t := by
  simp only [getTextList, getText]
  exact String.append_empty t

theorem convert_split_single (L R : List Html) (mid : Html) (t : String)
    (hmid : translatorPasses [mid] = [Html.text t]) :
    convert_html_to_jira_markup (L ++ mid :: R) =
      pyNormalize (getTextList (translatorPasses L) ++ t ++ getTextList (translatorPasses R)) := by
  rw [convert_eq_passes]
  rw [show L ++ mid :: R = L ++ ([mid] ++ R) from by simp]
  rw [translatorPasses_append L ([mid] ++ R), translatorPasses_append [mid] R, hmid]
  rw [getTextList_append, getTextList_append, getTextList_single_text]
  rw [String.append_assoc]

/-! ## Lemmas: processImg branches and a positional frame for extraction -/

theorem parseDataUri_startsWith (src imageType payload : String)
    (h : parseDataUri src = some (imageType, payload)) :
    pyStartsWith src "data:image/" = true := by
  unfold parseDataUri at h
  by_cases hs : pyStartsWith src "data:image/" = true
  · exact hs
  · rw [if_neg hs] at h
    exact absurd h (by simp)

theorem processImg_decode_fail (n : Nat) (attrs : List (String × String))
    (imageType payload : String)
    (hp : parseDataUri (getAttr attrs "src") = some (imageType, payload))
    (hb : b64decode payload = none) :
    processImg n attrs = (none, none) := by
  simp only [processImg]
  rw [if_pos (parseDataUri_startsWith _ _ _ hp), hp]
  simp [hb]

theorem processImg_decode_ok (n : Nat) (attrs : List (String × String))
    (imageType payload : String) (bytes : List Nat)
    (hp : parseDataUri (getAttr attrs "src") = some (imageType, payload))
    (hb : b64decode payload = some bytes) :
    processImg n attrs =
      (some ("!" ++ filenameFor n imageType ++ "|thumbnail!"),
       some { filename := filenameFor n imageType, content := bytes,
              content_type := "image/" ++ imageType }) := by
  simp only [processImg]
  rw [if_pos (parseDataUri_startsWith _ _ _ hp), hp]
  simp [hb]

theorem startsWith_cid_not_data (src : String) (h : pyStartsWith src "cid:" = true) :
    pyStartsWith src "data:image/" = false := by
  unfold pyStartsWith at h ⊢
  have hcid : "cid:".data = ['c', 'i', 'd', ':'] := rfl
  have hdata : "data:image/".data = ['d', 'a', 't', 'a', ':', 'i', 'm', 'a', 'g', 'e', '/'] := rfl
  rw [hcid] at h
  rw [hdata]
  cases hsd : src.data with
  | nil => rw [hsd] at h; simp [leadsWith] at h
  | cons a t =>
    rw [hsd] at h
    simp only [leadsWith, Bool.and_eq_true, decide_eq_true_eq] at h
    rcases h with ⟨ha, _⟩
    rw [Bool.eq_false_iff]
    intro hcon
    simp only [leadsWith, Bool.and_eq_true, decide_eq_true_eq] at hcon
    rcases hcon with ⟨hd, _⟩
    rw [← ha] at hd
    exact absurd hd (by decide)

theorem processImg_cid (n : Nat) (attrs : List (String × String))
    (hc : pyStartsWith (getAttr attrs "src") "cid:" = true) :
    processImg n attrs =
      (some ("!" ++ cidCleanName (getAttr attrs "src") ++ "|thumbnail!"), none) := by
  simp only [processImg]
  rw [startsWith_cid_not_data _ hc]
  simp only [Bool.false_eq_true, if_false, hc, if_true]

theorem processImg_repl_shape (n : Nat) (attrs : List (String × String)) :
    (processImg n attrs).1 = none ∨
      ∃ f, (processImg n attrs).1 = some ("!" ++ f ++ "|thumbnail!") := by
  by_cases hd : pyStartsWith (getAttr attrs "src") "data:image/" = true
  · cases hp : parseDataUri (getAttr attrs "src") with
    | none =>
      left
      simp only [processImg, if_pos hd, hp]
    | some pr =>
      rcases pr with ⟨imageType, payload⟩
      cases hb : b64decode payload with
      | none =>
        left
        rw [processImg_decode_fail n attrs imageType payload hp hb]
      | some bytes =>
        right
        refine ⟨filenameFor n imageType, ?_⟩
        rw [processImg_decode_ok n attrs imageType payload bytes hp hb]
  · by_cases hc : pyStartsWith (getAttr attrs "src") "cid:" = true
    · right
      refine ⟨cidCleanName (getAttr attrs "src"), ?_⟩
      rw [processImg_cid n attrs hc]
    · left
      simp only [processImg, if_neg hd, if_neg hc]

theorem extractOne_img (n : Nat) (attrs : List (String × String)) (ch : List Html) :
    extractOne n (Html.elem "img" attrs ch) =
      ((processImg n attrs).1.elim (Html.elem "img" attrs ch) Html.text,
       (processImg n attrs).2.toList, n + 1) := by
  simp [extractOne]

theorem extractList_cons (n : Nat) (h : Html) (t : List Html) :
    extractList n (h :: t) =
      ((extractOne n h).1 :: (extractList (extractOne n h).2.2 t).1,
       (extractOne n h).2.1 ++ (extractList (extractOne n h).2.2 t).2.1,
       (extractList (extractOne n h).2.2 t).2.2) := by
  simp [extractList]

/-- The extraction of a document split around one childless `img`
element: everything before is processed from index 0, the `img` itself
is handled by `processImg` at index `(findImgsList pre).length` (its
0-based position among all `img` elements), and everything after
continues at the next index. -/
theorem extract_frame (pre post : List Html) (attrs : List (String × String))
    (hv1 : imgVoidList pre = true) :
    extract_embedded_images (pre ++ Html.elem "img" attrs [] :: post) =
      (serializeList ((extractList 0 pre).1 ++
        ((processImg (findImgsList pre).length attrs).1.elim (Html.elem "img" attrs [])
          Html.text) :: (extractList ((findImgsList pre).length + 1) post).1),
       (extractList 0 pre).2.1 ++
        ((processImg (findImgsList pre).length attrs).2.toList ++
         (extractList ((findImgsList pre).length + 1) post).2.1)) := by
  unfold extract_embedded_images
  rw [extractList_append pre (Html.elem "img" attrs [] :: post) 0]
  rw [extractList_cons, extractOne_img]
  rw [(extractList_spec pre 0 hv1).1, Nat.zero_add]

theorem convert_eq_normalize (doc : List Html) :
    ∃ s, convert_html_to_jira_markup doc = pyNormalize s :=
  ⟨_, rfl⟩

/-! ## The claims -/

/-- C1 (counterexample): first, for `<pre>a  b</pre>` the output is
`\x7bcode\x7d\na b\n\x7bcode\x7d`: the final whitespace normalization also runs
inside the fences, so the element's text is not contained verbatim;
second, for `<b><pre>x</pre></b>` the bold pass (which runs before the
pre pass) consumes the whole element and the output is `*x*` with no
fence markers at all, so the claim fails for a `<pre>` nested inside an
element handled by an earlier pass. -/
theorem C1_counterexample :
    convert_html_to_jira_markup [Html.elem "pre" [] [Html.text "a  b"]] =
      "\x7bcode\x7d\na b\n\x7bcode\x7d" ∧
    containsStr (convert_html_to_jira_markup [Html.elem "pre" [] [Html.text "a  b"]])
      "a  b" = false ∧
    convert_html_to_jira_markup [Html.elem "b" [] [Html.elem "pre" [] [Html.text "x"]]] =
      "*x*" ∧
    containsStr
      (convert_html_to_jira_markup [Html.elem "b" [] [Html.elem "pre" [] [Html.text "x"]]])
      "\x7bcode\x7d" = false := by
  refine ⟨by decide, by decide, by decide, by decide⟩

/-- C1 (amended): for every document in which a `<pre>` element stands
at top level (the second counterexample shows a `<pre>` nested inside
an element handled by an earlier pass is consumed before the pre pass),
with arbitrary content around it and arbitrary children inside it, the
output is the final whitespace normalization of: the flattened
translation of what precedes, then the element's text — as left by the
passes that run before the pre pass, verbatim when it is plain text —
wrapped between `\x7bcode\x7d` fence markers, then the flattened translation
of what follows; so the wrapped content is preserved only up to the
final whitespace normalization, not verbatim.  A `<code>` nested
inside a `<pre>` is not additionally wrapped in double-brace
inline-code markers (third conjunct), while a top-level `<code>`
outside any `<pre>` is (fourth conjunct). -/
theorem C1_pre_wrapped_then_normalized :
    (∀ (L R : List Html) (attrs : List (String × String)) (cs : List Html),
      convert_html_to_jira_markup (L ++ Html.elem "pre" attrs cs :: R) =
        pyNormalize (getTextList (translatorPasses L) ++
          ("\x7bcode\x7d\n" ++ getTextList (preInnerPasses cs) ++ "\n\x7bcode\x7d\n") ++
          getTextList (translatorPasses R))) ∧
    (∀ (L R : List Html) (attrs : List (String × String)) (s : String),
      convert_html_to_jira_markup (L ++ Html.elem "pre" attrs [Html.text s] :: R) =
        pyNormalize (getTextList (translatorPasses L) ++
          ("\x7bcode\x7d\n" ++ s ++ "\n\x7bcode\x7d\n") ++
          getTextList (translatorPasses R))) ∧
    (∀ (L R : List Html) (attrs attrs2 : List (String × String)) (s : String),
      convert_html_to_jira_markup
          (L ++ Html.elem "pre" attrs [Html.elem "code" attrs2 [Html.text s]] :: R) =
        pyNormalize (getTextList (translatorPasses L) ++
          ("\x7bcode\x7d\n" ++ s ++ "\n\x7bcode\x7d\n") ++
          getTextList (translatorPasses R))) ∧
    (∀ (L R : List Html) (attrs : List (String × String)) (s : String),
      convert_html_to_jira_markup (L ++ Html.elem "code" attrs [Html.text s] :: R) =
        pyNormalize (getTextList (translatorPasses L) ++
          ("\x7b\x7b" ++ s ++ "\x7d\x7d") ++
          getTextList (translatorPasses R))) := by
  refine ⟨?_, ?_, ?_, ?_⟩
  · intro L R attrs cs
    exact convert_split_single L R _ _ (translatorPasses_pre attrs cs)
  · intro L R attrs s
    refine convert_split_single L R _ _ ?_
    rw [translatorPasses_pre attrs [Html.text s], preInnerPasses_text,
      getTextList_single_text]
  · intro L R attrs attrs2 s
    refine convert_split_single L R _ _ ?_
    rw [translatorPasses_pre attrs [Html.elem "code" attrs2 [Html.text s]],
      preInnerPasses_code_text]
    simp only [getTextList, getText, String.append_empty]
  · intro L R attrs s
    exact convert_split_single L R _ _ (translatorPasses_code_text attrs s)

/-- C2: on a document with no `img` element the extractor makes no
change: it returns the serialized document (the content string) and an
empty object list; and for a non-html body the wrapper returns the
content unchanged with an empty list. -/
theorem C2_no_imgs_identity :
    (∀ doc : List Html, findImgsList doc = [] →
      extract_embedded_images doc = (serializeList doc, [])) ∧
    (∀ (content contentType : String) (parsed : List Html), contentType ≠ "html" →
      extract_embedded_objects_from_email content contentType parsed = (content, [])) := by
  constructor
  · intro doc h
    unfold extract_embedded_images
    rw [extractList_noImg doc 0 h]
  · intro content ct parsed h
    unfold extract_embedded_objects_from_email
    rw [if_neg h]

/-- C2 (witness): concrete instances of both parts. -/
theorem C2_no_imgs_identity_witness :
    extract_embedded_images [Html.elem "p" [] [Html.text "hi"]] = ("<p>hi</p>", []) ∧
    extract_embedded_objects_from_email "hello" "text" [] = ("hello", []) := by
  constructor
  · exact C2_no_imgs_identity.1 [Html.elem "p" [] [Html.text "hi"]] (by decide)
  · exact C2_no_imgs_identity.2 "hello" "text" [] (by decide)

/-- C3: an `img` whose src parses as a base64 image data URI but whose
payload fails to decode yields no EmbeddedObject, is left untouched in
the cleaned output, and the surrounding document (including the images
after it, which keep their shifted indices) is still processed; the
extractor is a total function, so no exception escapes. -/
theorem C3_bad_base64_skipped (pre post : List Html) (attrs : List (String × String))
    (imageType payload : String)
    (hv1 : imgVoidList pre = true)
    (hp : parseDataUri (getAttr attrs "src") = some (imageType, payload))
    (hb : b64decode payload = none) :
    extract_embedded_images (pre ++ Html.elem "img" attrs [] :: post) =
      (serializeList ((extractList 0 pre).1 ++
         Html.elem "img" attrs [] :: (extractList ((findImgsList pre).length + 1) post).1),
       (extractList 0 pre).2.1 ++ (extractList ((findImgsList pre).length + 1) post).2.1) := by
  rw [extract_frame pre post attrs hv1]
  rw [processImg_decode_fail _ attrs imageType payload hp hb]
  rfl

/-- C3 (witness): a single image with an undecodable payload (`abc` has
3 data characters and no padding, so `b64decode` fails) is left as-is
and produces no objects. -/
theorem C3_bad_base64_skipped_witness :
    extract_embedded_images [Html.elem "img" [("src", "data:image/png;base64,abc")] []] =
      ("<img src=\"data:image/png;base64,abc\"/>", []) := by
  have h := C3_bad_base64_skipped [] [] [("src", "data:image/png;base64,abc")] "png" "abc"
    (by decide) (by decide) (by decide)
  exact h

/-- C5: an `img` whose src is a decodable base64 image data URI yields
exactly one EmbeddedObject whose content is the decoded bytes, whose
contentType is `image/<subtype>`, and whose filename is
`embedded_image_<i>.<subtype>` with `i` the 1-based position among all
`img` elements in document order (`(findImgsList pre).length` images
precede it, whatever their kind); the element itself is replaced by a
placeholder text containing that filename. -/
theorem C5_base64_success (pre post : List Html) (attrs : List (String × String))
    (imageType payload : String) (bytes : List Nat)
    (hv1 : imgVoidList pre = true)
    (hp : parseDataUri (getAttr attrs "src") = some (imageType, payload))
    (hb : b64decode payload = some bytes) :
    extract_embedded_images (pre ++ Html.elem "img" attrs [] :: post) =
      (serializeList ((extractList 0 pre).1 ++
         Html.text ("!" ++ filenameFor (findImgsList pre).length imageType ++ "|thumbnail!") ::
         (extractList ((findImgsList pre).length + 1) post).1),
       (extractList 0 pre).2.1 ++
         { filename := filenameFor (findImgsList pre).length imageType, content := bytes,
           content_type := "image/" ++ imageType } ::
         (extractList ((findImgsList pre).length + 1) post).2.1) := by
  rw [extract_frame pre post attrs hv1]
  rw [processImg_decode_ok _ attrs imageType payload bytes hp hb]
  rfl

/-- C5 (witness): the spec's own example, `data:image/png;base64,QUJD`
as the only image: one object with filename `embedded_image_1.png`,
content the decoded bytes of `QUJD` (`ABC`), contentType `image/png`,
and the placeholder carrying the filename. -/
theorem C5_base64_success_witness :
    extract_embedded_images [Html.elem "img" [("src", "data:image/png;base64,QUJD")] []] =
      ("!embedded_image_1.png|thumbnail!",
       [{ filename := "embedded_image_1.png", content := [65, 66, 67],
          content_type := "image/png" }]) := by
  have h := C5_base64_success [] [] [("src", "data:image/png;base64,QUJD")] "png" "QUJD"
    [65, 66, 67] (by decide) (by decide) (by decide)
  exact h

/-- C4 (counterexample): the source collapses only runs of space
characters (`re.sub(r' \x7b2,\x7d', ' ', ...)`), not all horizontal
whitespace: the plain-text input `a\t\tb` passes through with its two
consecutive tabs intact, so the output does contain a run of 2
horizontal whitespace characters. -/
theorem C4_counterexample :
    convert_html_to_jira_markup [Html.text "a\t\tb"] = "a\t\tb" ∧
    infixOf ['\t', '\t'] (convert_html_to_jira_markup [Html.text "a\t\tb"]).data = true := by
  constructor
  · decide
  · decide

/-- C4 (amended): for every input document the translator's output has
no run of 3 or more consecutive newlines, no run of 2 or more
consecutive space characters (tabs and other horizontal whitespace are
not collapsed), and neither its first nor its last character is
whitespace. -/
theorem C4_output_normalized (doc : List Html) :
    runOK '\n' 2 2 (convert_html_to_jira_markup doc).data = true ∧
    runOK ' ' 1 1 (convert_html_to_jira_markup doc).data = true ∧
    (convert_html_to_jira_markup doc).data.head?.all (fun c => !isPySpace c) = true ∧
    (convert_html_to_jira_markup doc).data.getLast?.all (fun c => !isPySpace c) = true := by
  obtain ⟨s, hs⟩ := convert_eq_normalize doc
  rw [hs]
  refine ⟨pyNormalize_runOK_nl s, pyNormalize_runOK_sp s, ?_, ?_⟩
  · cases hh : (pyNormalize s).data.head? with
    | none => rfl
    | some c =>
      have := pyNormalize_head s c hh
      simp [Option.all, this]
  · cases hl : (pyNormalize s).data.getLast? with
    | none => rfl
    | some c =>
      have := pyNormalize_last s c hl
      simp [Option.all, this]

/-- C6 (counterexample): the code derives the clean filename with
`src.replace('cid:', '')`, which removes every occurrence of `cid:`,
not just the prefix: for `src = cid:xcid:y` the content-ID after the
prefix is `xcid:y` (no `@`), so the claim predicts the placeholder
`!xcid:y|thumbnail!`, but the code produces `!xy|thumbnail!`. -/
theorem C6_counterexample :
    extract_embedded_images [Html.elem "img" [("src", "cid:xcid:y")] []] =
      ("!xy|thumbnail!", []) ∧
    ("!xy|thumbnail!" : String) ≠ "!xcid:y|thumbnail!" := by
  constructor
  · decide
  · decide

/-- C6 (amended): an `img` whose src starts with `cid:` is replaced by
a placeholder embedding the clean filename obtained by removing every
occurrence of `cid:` from the src and then taking the part before the
first `@` when one is present (for `cid:image002.png@01DB1234.5678ABCD`
this is `image002.png`), and no EmbeddedObject is produced for it while
the rest of the document is still processed. -/
theorem C6_cid_placeholder (pre post : List Html) (attrs : List (String × String))
    (hv1 : imgVoidList pre = true)
    (hc : pyStartsWith (getAttr attrs "src") "cid:" = true) :
    extract_embedded_images (pre ++ Html.elem "img" attrs [] :: post) =
      (serializeList ((extractList 0 pre).1 ++
         Html.text ("!" ++ cidCleanName (getAttr attrs "src") ++ "|thumbnail!") ::
         (extractList ((findImgsList pre).length + 1) post).1),
       (extractList 0 pre).2.1 ++ (extractList ((findImgsList pre).length + 1) post).2.1) := by
  rw [extract_frame pre post attrs hv1]
  rw [processImg_cid _ attrs hc]
  rfl

/-- C6 (witness): the spec's example CID yields placeholder filename
`image002.png` and no object. -/
theorem C6_cid_placeholder_witness :
    extract_embedded_images
        [Html.elem "img" [("src", "cid:image002.png@01DB1234.5678ABCD")] []] =
      ("!image002.png|thumbnail!", []) := by
  have h := C6_cid_placeholder [] [] [("src", "cid:image002.png@01DB1234.5678ABCD")]
    (by decide) (by decide)
  exact h

/-- C7: the translator is modelled as a total function (every operation
of the source is total on string inputs, so no exception is raised);
a missing (`None`) body and the empty string are both caught by the
`if not html_content` guard and yield the empty string, as does the
empty document. -/
theorem C7_total_empty_input :
    (∀ parsed : List Html, convertBody none parsed = "") ∧
    (∀ parsed : List Html, convertBody (some "") parsed = "") ∧
    convert_html_to_jira_markup [] = "" :=
  ⟨fun _ => rfl, fun _ => rfl, convert_nil⟩

/-- C8: on plain text (a document that is a single text node, i.e. no
HTML tags) the translator returns exactly the input text trimmed and
whitespace-normalized, and translating that output again returns it
unchanged: the output is a fixed point of the translator. -/
theorem C8_plain_text_idempotent (s : String) :
    convert_html_to_jira_markup [Html.text s] = pyNormalize s ∧
    convert_html_to_jira_markup
        [Html.text (convert_html_to_jira_markup [Html.text s])] =
      convert_html_to_jira_markup [Html.text s] := by
  refine ⟨convert_text s, ?_⟩
  rw [convert_text s, convert_text (pyNormalize s), pyNormalize_idem]

/-- C9: in one extraction run the returned objects are exactly the
successful per-image results in the document order of their
originating `img` elements (the `enumFrom`/`filterMap` of the
document-order image snapshot), and their filenames are pairwise
distinct (each embeds its image's 1-based index). -/
theorem C9_unique_filenames_in_order (doc : List Html) (hv : imgVoidList doc = true) :
    (extract_embedded_images doc).2 =
      (List.enumFrom 0 (findImgsList doc)).filterMap (fun p => (processImg p.1 p.2).2) ∧
    List.Pairwise (fun a b => a.filename ≠ b.filename) (extract_embedded_images doc).2 := by
  have hchar := (extractList_spec doc 0 hv).2
  constructor
  · exact hchar
  · rw [show (extract_embedded_images doc).2 = (extractList 0 doc).2.1 from rfl, hchar]
    have hpw := (filterMap_enumFrom_fnIdx (findImgsList doc) 0).2
    refine List.Pairwise.imp ?_ hpw
    intro a b hab hEq
    rw [hEq] at hab
    omega

/-- C9 (witness): a document with a decodable image, a CID image and a
second decodable image: objects come back in document order with the
distinct filenames `embedded_image_1.png` and `embedded_image_3.gif`
(the CID image consumes index 2). -/
theorem C9_unique_filenames_in_order_witness :
    (extract_embedded_images
        [Html.elem "img" [("src", "data:image/png;base64,QUJD")] [],
         Html.elem "img" [("src", "cid:a@b")] [],
         Html.elem "img" [("src", "data:image/gif;base64,QUJD")] []]).2 =
      [{ filename := "embedded_image_1.png", content := [65, 66, 67],
         content_type := "image/png" },
       { filename := "embedded_image_3.gif", content := [65, 66, 67],
         content_type := "image/gif" }] ∧
    List.Pairwise (fun a b => a.filename ≠ b.filename)
      (extract_embedded_images
        [Html.elem "img" [("src", "data:image/png;base64,QUJD")] [],
         Html.elem "img" [("src", "cid:a@b")] [],
         Html.elem "img" [("src", "data:image/gif;base64,QUJD")] []]).2 := by
  have h := C9_unique_filenames_in_order
    [Html.elem "img" [("src", "data:image/png;base64,QUJD")] [],
     Html.elem "img" [("src", "cid:a@b")] [],
     Html.elem "img" [("src", "data:image/gif;base64,QUJD")] []] (by decide)
  refine ⟨?_, h.2⟩
  rw [h.1]
  decide

/-- C10: whenever the extractor replaces an `img` element, the
replacement is exactly the tracker thumbnail markup
`!<filename>|thumbnail!` (never a plain bracketed token): a decoded
base64 image is replaced by `!<generated filename>|thumbnail!` and a
CID image by `!<clean filename>|thumbnail!`. -/
theorem C10_placeholder_format (n : Nat) (attrs : List (String × String)) :
    ((processImg n attrs).1 = none ∨
      ∃ f, (processImg n attrs).1 = some ("!" ++ f ++ "|thumbnail!")) ∧
    (∀ (imageType payload : String) (bytes : List Nat),
      parseDataUri (getAttr attrs "src") = some (imageType, payload) →
      b64decode payload = some bytes →
      (processImg n attrs).1 = some ("!" ++ filenameFor n imageType ++ "|thumbnail!")) ∧
    (pyStartsWith (getAttr attrs "src") "cid:" = true →
      (processImg n attrs).1 =
        some ("!" ++ cidCleanName (getAttr attrs "src") ++ "|thumbnail!")) := by
  refine ⟨processImg_repl_shape n attrs, ?_, ?_⟩
  · intro imageType payload bytes hp hb
    rw [processImg_decode_ok n attrs imageType payload bytes hp hb]
  · intro hc
    rw [processImg_cid n attrs hc]

/-- C10 (witness): both placeholder shapes at concrete inputs. -/
theorem C10_placeholder_format_witness :
    (processImg 0 [("src", "cid:a@b")]).1 =
      some ("!" ++ cidCleanName "cid:a@b" ++ "|thumbnail!") ∧
    (processImg 4 [("src", "data:image/png;base64,QUJD")]).1 =
      some ("!" ++ filenameFor 4 "png" ++ "|thumbnail!") := by
  constructor
  · exact (C10_placeholder_format 0 [("src", "cid:a@b")]).2.2 (by decide)
  · exact (C10_placeholder_format 4 [("src", "data:image/png;base64,QUJD")]).2.1
      "png" "QUJD" [65, 66, 67] (by decide) (by decide)
